import Mathlib

/-!
# Verification of `validate_email_links.py` (McKenzie Studios)

A shallow embedding of the email-link validation script.  The script has
two parts:

* `EmailLinkParser`, an `html.parser.HTMLParser` subclass that collects
  `mailto:` anchor links from event callbacks (`handle_starttag`,
  `handle_endtag`, `handle_data`).  We embed the three handlers over an
  explicit event type: each event carries exactly the data the standard
  library hands to the corresponding callback (lower-cased tag name,
  attribute list with optional values, and the 1-based line of the tag
  as returned by `getpos()[0]`).  A handler that would raise an uncaught
  Python exception is modelled by `ParseOutcome.error`.
* `main`, the report generator.  Its per-link computations (candidate
  email, format regex, text match, class truthiness, domain split) and
  the two document-level regex checks are embedded as pure functions,
  together with the fold that computes `all_tests_passed`.

Machine-specific caveats of the Python source are embedded faithfully:
`str.replace` removes *every* occurrence of its pattern, `$` in an
`re` pattern also matches just before one trailing newline,
`email.split('@')[1]` is the field *between* the first and second `@`,
and a valueless HTML attribute carries the value `None`.
-/

/-! ## Python character classes and string helpers -/

/-- The characters Python treats as whitespace for `str.strip()` and for
`\s` in a `str` regular expression (Unicode whitespace). -/
def pyIsSpace (c : Char) : Bool :=
  c == ' ' || c == '\t' || c == '\n' || c == '\r' || c == '\x0b' || c == '\x0c' ||
  c == '\x1c' || c == '\x1d' || c == '\x1e' || c == '\x1f' || c == '\x85' || c == '\xa0' ||
  c == '\u1680' || (decide ('\u2000' ≤ c) && decide (c ≤ '\u200a')) ||
  c == '\u2028' || c == '\u2029' || c == '\u202f' || c == '\u205f' || c == '\u3000'

/-- Python `str.strip()`: drop leading and trailing whitespace. -/
def pyStrip (s : String) : String :=
  (((s.data.dropWhile pyIsSpace).reverse.dropWhile pyIsSpace).reverse).asString

/-- The characters of the literal `"mailto:"`. -/
def mailtoChars : List Char := "mailto:".data

/-- `v.startswith('mailto:')` on the href string. -/
def startsMailto (v : String) : Bool := mailtoChars.isPrefixOf v.data

/-- Whether `pat` occurs as a contiguous sublist of `l`
(Python `pat in s` on strings). -/
def hasSubstr (pat : List Char) : List Char → Bool
  | [] => pat.isEmpty
  | c :: rest => pat.isPrefixOf (c :: rest) || hasSubstr pat rest

/-- Fuel-driven core of Python `s.replace('mailto:', '')`: scan left to
right, removing each (non-overlapping, leftmost) occurrence of
`mailto:`.  Each step consumes at least one character, so fuel equal to
the length of the list is always sufficient. -/
def replMFuel : Nat → List Char → List Char
  | _, [] => []
  | 0, l => l
  | n + 1, c :: rest =>
    if mailtoChars.isPrefixOf (c :: rest) then replMFuel n (rest.drop 6)
    else c :: replMFuel n rest

/-- Python `href.replace('mailto:', '')` (line 82 of the script):
every occurrence of `mailto:` is removed, not only a leading prefix. -/
def pyReplaceMailtoEmpty (l : List Char) : List Char := replMFuel l.length l

/-- Python `str.split(sep)` for a one-character separator: split on every
occurrence, keeping empty fields. -/
def pySplitChar (sep : Char) : List Char → List (List Char)
  | [] => [[]]
  | c :: rest =>
    match pySplitChar sep rest with
    | [] => [[c]]
    | h :: t => if c = sep then [] :: h :: t else (c :: h) :: t

/-! ## The link extractor (`EmailLinkParser`) -/

/-- One extracted mailto link (the dict built in `handle_starttag`).
`cls` is `Option String` because `html.parser` reports a valueless
attribute as the Python value `None`. -/
structure LinkRecord where
  href : String
  cls : Option String
  text : String
  line_num : Nat
deriving DecidableEq

/-- The mutable fields of `EmailLinkParser`. -/
structure ParserState where
  email_links : List LinkRecord
  current_link : Option LinkRecord
  in_link : Bool
deriving DecidableEq

/-- The state set up by `EmailLinkParser.__init__`. -/
def initState : ParserState := ⟨[], none, false⟩

/-- One `html.parser` callback.  `startTag` carries the 1-based line
number of the tag (`getpos()[0]`), the lower-cased tag name, and the
attribute list; attribute values are `none` for valueless attributes. -/
inductive HtmlEvent where
  | startTag (line : Nat) (tag : String) (attrs : List (String × Option String))
  | endTag (tag : String)
  | dataEv (s : String)
deriving DecidableEq

/-- Result of running handlers: either a state, or an uncaught Python
exception. -/
inductive ParseOutcome where
  | ok (s : ParserState)
  | error
deriving DecidableEq

/-- `dict(attrs)[key]` as an optional lookup: the *last* binding of a
duplicated key wins, exactly as when Python builds a dict from a list of
pairs.  The outer `Option` is key presence; the inner `Option String` is
the stored (possibly `None`) value. -/
def dictLookup (attrs : List (String × Option String)) (key : String) :
    Option (Option String) :=
  attrs.foldl (fun acc p => if p.1 == key then some p.2 else acc) none

/-- `attrs_dict.get('class', '')`: the stored value when the key is
present (even when that value is `None`), the empty string otherwise. -/
def classDefault (attrs : List (String × Option String)) : Option String :=
  (dictLookup attrs "class").getD (some "")

/-- `EmailLinkParser.handle_starttag`.  When the `href` attribute is
present but valueless, `attrs_dict['href'].startswith('mailto:')` is
`None.startswith(...)`, an uncaught `AttributeError`, modelled as
`ParseOutcome.error`. -/
def handle_starttag (s : ParserState) (line : Nat) (tag : String)
    (attrs : List (String × Option String)) : ParseOutcome :=
  if tag == "a" then
    match dictLookup attrs "href" with
    | some (some href) =>
      if startsMailto href then
        .ok { s with
              current_link := some ⟨href, classDefault attrs, "", line⟩,
              in_link := true }
      else .ok s
    | some none => .error
    | none => .ok s
  else .ok s

/-- `EmailLinkParser.handle_endtag`. -/
def handle_endtag (s : ParserState) (tag : String) : ParserState :=
  if tag == "a" && s.in_link then
    match s.current_link with
    | some r => ⟨s.email_links ++ [r], none, false⟩
    | none => ⟨s.email_links, none, false⟩
  else s

/-- `EmailLinkParser.handle_data`: while a link is open, append the
stripped data chunk to the current link's text. -/
def handle_data (s : ParserState) (d : String) : ParserState :=
  if s.in_link then
    match s.current_link with
    | some r => { s with current_link := some { r with text := r.text ++ pyStrip d } }
    | none => s
  else s

/-- Dispatch one event to its handler. -/
def processEvent (s : ParserState) : HtmlEvent → ParseOutcome
  | .startTag line tag attrs => handle_starttag s line tag attrs
  | .endTag tag => .ok (handle_endtag s tag)
  | .dataEv d => .ok (handle_data s d)

/-- Feed a list of events through the handlers; the first uncaught
exception aborts the run. -/
def processEvents : ParserState → List HtmlEvent → ParseOutcome
  | s, [] => .ok s
  | s, e :: rest =>
    match processEvent s e with
    | .ok s' => processEvents s' rest
    | .error => .error

/-! ## The email-format regular expression

The script tests `re.match(r'^[a-zA-Z0-9._%+-]+@[a-zA-Z0-9.-]+\.[a-zA-Z]{2,}$', email)`.
The match is deterministic for this pattern: `@` is not in the local
character class, so the local part is the maximal run of local
characters; the top-level-domain part must be the maximal run of
letters at the end of the string (any shorter run of length `< max`
would be preceded by a letter, not the required literal dot).  The
matcher below computes exactly that.  `$` in Python also matches just
before a single newline that ends the string; `validate_email_format`
adds that case. -/

/-- The regex class `[a-zA-Z0-9._%+-]` (local part). -/
def isLocalChar (c : Char) : Bool :=
  c.isAlpha || c.isDigit || c == '.' || c == '_' || c == '%' || c == '+' || c == '-'

/-- The regex class `[a-zA-Z0-9.-]` (domain part). -/
def isDomainChar (c : Char) : Bool :=
  c.isAlpha || c.isDigit || c == '.' || c == '-'

/-- The regex class `[a-zA-Z]`. -/
def isAsciiLetter (c : Char) : Bool := c.isAlpha

/-- Whether the pattern `^[a-zA-Z0-9._%+-]+@[a-zA-Z0-9.-]+\.[a-zA-Z]{2,}$`
matches the whole character list (strict end, no newline tolerance). -/
def matchEmailCore (l : List Char) : Bool :=
  let loc := l.takeWhile isLocalChar
  decide (loc ≠ []) &&
    match l.drop loc.length with
    | '@' :: r =>
      let rev := r.reverse
      let tld := rev.takeWhile isAsciiLetter
      decide (2 ≤ tld.length) &&
        match rev.drop tld.length with
        | '.' :: drev => decide (drev ≠ []) && drev.all isDomainChar
        | _ => false
    | _ => false

/-- `validate_email_format` (lines 40-43): `re.match(pattern, email) is
not None`.  Because the pattern is anchored with `^` and `$`, this is a
whole-string match, except that Python's `$` also matches just before a
single newline ending the string. -/
def validate_email_format (email : String) : Bool :=
  matchEmailCore email.data ||
    (email.data.getLast? == some '\n' && matchEmailCore email.data.dropLast)

/-! ## Document-level regex checks

Both patterns are again deterministic: in `</a>\s*</a>` the run of
`\s*` that can be followed by `<` is exactly the maximal whitespace run
(`<` is not whitespace), and in `mailto:\s+[^\s]` a match exists at a
position exactly when the maximal whitespace run after `mailto:` is
non-empty and is followed by at least one (necessarily non-whitespace)
character. -/

/-- The characters of the closing tag `</a>`. -/
def closeATag : List Char := "</a>".data

/-- A match of `</a>\s*</a>` starts at this position. -/
def dupMatchAt (l : List Char) : Bool :=
  closeATag.isPrefixOf l &&
    closeATag.isPrefixOf ((l.drop 4).dropWhile pyIsSpace)

/-- A match of `mailto:\s+[^\s]` starts at this position. -/
def malformedMatchAt (l : List Char) : Bool :=
  mailtoChars.isPrefixOf l &&
    (let rest := l.drop 7
     let ws := rest.takeWhile pyIsSpace
     decide (ws ≠ []) && decide (rest.drop ws.length ≠ []))

/-- Does `p` hold at some suffix position of `l` (the scan a regex
search performs)? -/
def anyPosition (p : List Char → Bool) : List Char → Bool
  | [] => p []
  | c :: rest => p (c :: rest) || anyPosition p rest

/-- `check_duplicate_tags` (lines 45-50) used as a truth value:
`bool(re.findall(r'</a>\s*</a>', html_content))`. -/
def hasDuplicateClosingTags (html : String) : Bool :=
  anyPosition dupMatchAt html.data

/-- Line 123 used as a truth value:
`bool(re.findall(r'mailto:\s+[^\s]', html_content))`. -/
def hasMalformedMailto (html : String) : Bool :=
  anyPosition malformedMatchAt html.data

/-! ## Per-link checks (the loop body of `main`, lines 81-108) -/

/-- Python truthiness of `link['class']` (`bool('')` and `bool(None)`
are false). -/
def pyTruthy : Option String → Bool
  | none => false
  | some s => !(s == "")

/-- How an f-string renders `link['class']`: `None` for the Python
`None` value, the string itself otherwise. -/
def pyShowOptStr : Option String → String
  | none => "None"
  | some s => s

/-- `email.split('@')[1] if '@' in email else ''` (line 105): the field
between the first and the second `@`. -/
def domainOf (email : String) : String :=
  if email.data.contains '@' then ((pySplitChar '@' email.data).getD 1 []).asString
  else ""

/-- The five per-link outcomes computed in the loop body of `main`. -/
structure CheckOutcome where
  email : String
  is_valid : Bool
  text_matches : Bool
  has_class : Bool
  domain : String
  is_mckenzie : Bool
deriving DecidableEq

/-- Lines 81-106: candidate email and the four per-link checks. -/
def checkLink (link : LinkRecord) : CheckOutcome :=
  let email := (pyReplaceMailtoEmpty link.href.data).asString
  { email := email
    is_valid := validate_email_format email
    text_matches := link.text == email
    has_class := pyTruthy link.cls
    domain := domainOf email
    is_mckenzie := hasSubstr "mckenziestudios".data (domainOf email).data }

/-- Line 101: `"✓ PASS" if has_class else "⚠ WARN"`. -/
def hasClassStatus (link : LinkRecord) : String :=
  if (checkLink link).has_class then "✓ PASS" else "⚠ WARN"

/-- Line 107: `"✓ PASS" if is_mckenzie else "⚠ INFO"`. -/
def domainStatus (link : LinkRecord) : String :=
  if (checkLink link).is_mckenzie then "✓ PASS" else "⚠ INFO"

/-- Line 77: the printed `Class:` field, `f"Class: {link['class']}"`. -/
def classFieldLine (link : LinkRecord) : String :=
  "Class: " ++ pyShowOptStr link.cls

/-- One iteration's effect on `all_tests_passed` (lines 84-96): the
format check and the text-match check each clear the flag on failure;
tests 3 and 4 print but never touch it. -/
def linkFoldStep (acc : Bool) (link : LinkRecord) : Bool :=
  let c := checkLink link
  let acc := if c.is_valid then acc else false
  let acc := if c.text_matches then acc else false
  acc

/-- The value of `all_tests_passed` at line 132: start `True`, fold the
per-link loop, then the duplicate-closing-tag and malformed-mailto
checks. -/
def mainAllTestsPassed (html : String) (links : List LinkRecord) : Bool :=
  let acc := links.foldl linkFoldStep true
  let acc := if hasDuplicateClosingTags html then false else acc
  if hasMalformedMailto html then false else acc

/-! ## Claims about the extractor handlers -/

/-- Claim C5: on a start-tag event for an `a` element, the handler reads
the attributes as a case-sensitive last-binding-wins mapping and opens a
new current-link accumulator exactly when an `href` attribute with a
string value starting with `mailto:` is present, initialising it with
that href, the (defaulted) `class` value, empty text, and the tag's
1-based line number; otherwise the state is unchanged. -/
theorem claim_C5_starttag_opens_iff_mailto (s : ParserState) (line : Nat)
    (attrs : List (String × Option String)) :
    (∀ v : String, dictLookup attrs "href" = some (some v) → startsMailto v = true →
      processEvent s (.startTag line "a" attrs) =
        .ok { s with current_link := some ⟨v, classDefault attrs, "", line⟩,
                     in_link := true }) ∧
    (∀ v : String, dictLookup attrs "href" = some (some v) → startsMailto v = false →
      processEvent s (.startTag line "a" attrs) = .ok s) ∧
    (dictLookup attrs "href" = none →
      processEvent s (.startTag line "a" attrs) = .ok s) := by
  refine ⟨fun v h1 h2 => by simp [processEvent, handle_starttag, h1, h2],
          fun v h1 h2 => by simp [processEvent, handle_starttag, h1, h2],
          fun h1 => by simp [processEvent, handle_starttag, h1]⟩

/-- Witness for C5 at a concrete event. -/
theorem claim_C5_witness :
    processEvent initState
      (.startTag 3 "a" [("href", some "mailto:x@y.zz"), ("class", some "email-link")]) =
    .ok ⟨[], some ⟨"mailto:x@y.zz", some "email-link", "", 3⟩, true⟩ :=
  (claim_C5_starttag_opens_iff_mailto initState 3
    [("href", some "mailto:x@y.zz"), ("class", some "email-link")]).1
    "mailto:x@y.zz" (by decide) (by decide)

/-- Claim C6: a second mailto-anchor start-tag arriving while a mailto
link is still open silently overwrites the single current-link slot:
the output sequence is left unchanged, so the previously open record is
discarded without ever being appended. -/
theorem claim_C6_overwrite_discards_open_link (s : ParserState) (r : LinkRecord)
    (line : Nat) (attrs : List (String × Option String)) (v : String)
    (_hin : s.in_link = true) (_hcur : s.current_link = some r)
    (hhref : dictLookup attrs "href" = some (some v)) (hm : startsMailto v = true) :
    processEvent s (.startTag line "a" attrs) =
      .ok ⟨s.email_links, some ⟨v, classDefault attrs, "", line⟩, true⟩ := by
  simp [processEvent, handle_starttag, hhref, hm]

/-- Witness for C6: a full document whose first mailto anchor is never
closed before a second one opens; the output holds only the second
link, and the first href appears nowhere. -/
theorem claim_C6_witness :
    processEvent ⟨[], some ⟨"mailto:a@a.aa", some "one", "", 1⟩, true⟩
      (.startTag 2 "a" [("href", some "mailto:b@b.bb")]) =
      .ok ⟨[], some ⟨"mailto:b@b.bb", some "", "", 2⟩, true⟩ ∧
    processEvents initState
      [.startTag 1 "a" [("href", some "mailto:a@a.aa"), ("class", some "one")],
       .startTag 2 "a" [("href", some "mailto:b@b.bb")],
       .dataEv "t", .endTag "a"] =
      .ok ⟨[⟨"mailto:b@b.bb", some "", "t", 2⟩], none, false⟩ :=
  ⟨claim_C6_overwrite_discards_open_link
      ⟨[], some ⟨"mailto:a@a.aa", some "one", "", 1⟩, true⟩
      ⟨"mailto:a@a.aa", some "one", "", 1⟩ 2
      [("href", some "mailto:b@b.bb")] "mailto:b@b.bb" rfl rfl (by decide) (by decide),
   by decide⟩

/-- Claim C8: an `a` start-tag whose `href` attribute is present but
valueless makes `handle_starttag` evaluate `None.startswith('mailto:')`
and raise, so the extractor is not total over tokenizable inputs. -/
theorem claim_C8_valueless_href_raises :
    processEvent initState (.startTag 1 "a" [("href", none)]) = .error ∧
    processEvents initState [.startTag 1 "a" [("href", none)], .endTag "a"] = .error := by
  decide

/-- Claim C9: while a mailto link is open, a nested `a` start-tag whose
href has a value not starting with `mailto:` leaves the state unchanged,
and the very next closing `a` tag emits the open record as it stands;
data arriving after that close is discarded. -/
theorem claim_C9_nested_non_mailto_anchor (s : ParserState) (r : LinkRecord)
    (line : Nat) (attrs : List (String × Option String)) (v d : String)
    (hin : s.in_link = true) (hcur : s.current_link = some r)
    (hhref : dictLookup attrs "href" = some (some v)) (hm : startsMailto v = false) :
    processEvent s (.startTag line "a" attrs) = .ok s ∧
    processEvents s [.startTag line "a" attrs, .endTag "a", .dataEv d] =
      .ok ⟨s.email_links ++ [r], none, false⟩ := by
  refine ⟨by simp [processEvent, handle_starttag, hhref, hm], ?_⟩
  simp [processEvents, processEvent, handle_starttag, hhref, hm,
        handle_endtag, handle_data, hin, hcur]

/-- Witness for C9 at a concrete open state and nested anchor. -/
theorem claim_C9_witness :
    processEvents ⟨[], some ⟨"mailto:a@a.aa", some "one", "a@", 1⟩, true⟩
      [.startTag 1 "a" [("href", some "https://x")], .endTag "a", .dataEv "a.aa"] =
      .ok ⟨[⟨"mailto:a@a.aa", some "one", "a@", 1⟩], none, false⟩ :=
  (claim_C9_nested_non_mailto_anchor
    ⟨[], some ⟨"mailto:a@a.aa", some "one", "a@", 1⟩, true⟩
    ⟨"mailto:a@a.aa", some "one", "a@", 1⟩ 1
    [("href", some "https://x")] "https://x" "a.aa" rfl rfl (by decide) (by decide)).2

/-- Claim C10: a mailto anchor whose `class` attribute is present but
valueless stores the Python `None` as its css class (not the empty
string); the has-class check still reports `⚠ WARN` and the printed
`Class:` field shows `None`. -/
theorem claim_C10_valueless_class_is_none (s : ParserState) (line : Nat)
    (attrs : List (String × Option String)) (v : String)
    (hhref : dictLookup attrs "href" = some (some v)) (hm : startsMailto v = true)
    (hcls : dictLookup attrs "class" = some none) :
    processEvent s (.startTag line "a" attrs) =
      .ok { s with current_link := some ⟨v, none, "", line⟩, in_link := true } ∧
    hasClassStatus ⟨v, none, "", line⟩ = "⚠ WARN" ∧
    classFieldLine ⟨v, none, "", line⟩ = "Class: None" := by
  refine ⟨?_, ?_, rfl⟩
  · have : classDefault attrs = none := by simp [classDefault, hcls]
    simp [processEvent, handle_starttag, hhref, hm, this]
  · simp [hasClassStatus, checkLink, pyTruthy]

/-- Witness for C10 at a concrete event with a valueless class. -/
theorem claim_C10_witness :
    processEvent initState
      (.startTag 4 "a" [("class", none), ("href", some "mailto:x@y.zz")]) =
      .ok ⟨[], some ⟨"mailto:x@y.zz", none, "", 4⟩, true⟩ ∧
    hasClassStatus ⟨"mailto:x@y.zz", none, "", 4⟩ = "⚠ WARN" ∧
    classFieldLine ⟨"mailto:x@y.zz", none, "", 4⟩ = "Class: None" :=
  claim_C10_valueless_class_is_none initState 4
    [("class", none), ("href", some "mailto:x@y.zz")] "mailto:x@y.zz"
    (by decide) (by decide) (by decide)

/-! ## The overall verdict (claim C1) -/

/-- The per-link fold is the conjunction of the format and text-match
outcomes. -/
theorem foldl_linkFoldStep (links : List LinkRecord) (acc : Bool) :
    links.foldl linkFoldStep acc =
      (acc && links.all fun l => (checkLink l).is_valid && (checkLink l).text_matches) := by
  induction links generalizing acc with
  | nil => simp
  | cons l ls ih =>
    have hstep : linkFoldStep acc l =
        (acc && ((checkLink l).is_valid && (checkLink l).text_matches)) := by
      simp only [linkFoldStep]
      cases (checkLink l).is_valid <;> cases (checkLink l).text_matches <;> simp
    simp [List.foldl_cons, hstep, ih, Bool.and_assoc]

/-- `all_tests_passed` as a closed formula: only the format and
text-match outcomes and the two document checks enter. -/
theorem mainAllTestsPassed_eq (html : String) (links : List LinkRecord) :
    mainAllTestsPassed html links =
      ((links.all fun l => (checkLink l).is_valid && (checkLink l).text_matches) &&
        !hasDuplicateClosingTags html && !hasMalformedMailto html) := by
  unfold mainAllTestsPassed
  rw [foldl_linkFoldStep]
  cases hasDuplicateClosingTags html <;> cases hasMalformedMailto html <;> simp

/-- Claim C1: `all_tests_passed` equals the conjunction of the
format-validity and text-match outcomes over all extracted links with
the duplicate-closing-tag and malformed-mailto document checks; the
has-class and domain outcomes never affect it (in particular it is
invariant under arbitrary rewriting of every link's css class). -/
theorem claim_C1_all_tests_passed_conjunction (html : String) (links : List LinkRecord) :
    (mainAllTestsPassed html links =
      ((links.all fun l => (checkLink l).is_valid && (checkLink l).text_matches) &&
        !hasDuplicateClosingTags html && !hasMalformedMailto html)) ∧
    (∀ f : Option String → Option String,
      mainAllTestsPassed html (links.map fun r => { r with cls := f r.cls }) =
        mainAllTestsPassed html links) := by
  refine ⟨mainAllTestsPassed_eq html links, fun f => ?_⟩
  rw [mainAllTestsPassed_eq, mainAllTestsPassed_eq, List.all_map]
  rfl

/-! ## Order preservation (claim C7) -/

/-- The start-tag lines of an event list are bounded below by `lo` and
nondecreasing (the shape of the event stream `html.parser` produces
when scanning a document front to back). -/
def eventsLineMono (lo : Nat) : List HtmlEvent → Bool
  | [] => true
  | .startTag line _ _ :: rest => decide (lo ≤ line) && eventsLineMono line rest
  | .endTag _ :: rest => eventsLineMono lo rest
  | .dataEv _ :: rest => eventsLineMono lo rest

/-- Invariant tying a parser state to the line bound `lo` of the events
already consumed: collected links are sorted by line and bounded by
`lo`, and an open link sits at or below `lo` but at or above every
collected link. -/
def linesOK (lo : Nat) (s : ParserState) : Prop :=
  List.Sorted (· ≤ ·) (s.email_links.map LinkRecord.line_num) ∧
  (∀ r ∈ s.email_links, r.line_num ≤ lo) ∧
  (∀ r, s.current_link = some r →
    r.line_num ≤ lo ∧ ∀ r' ∈ s.email_links, r'.line_num ≤ r.line_num)

theorem linesOK_mono {lo lo' : Nat} {s : ParserState} (h : lo ≤ lo') :
    linesOK lo s → linesOK lo' s := by
  rintro ⟨h1, h2, h3⟩
  exact ⟨h1, fun r hr => le_trans (h2 r hr) h,
         fun r hr => ⟨le_trans (h3 r hr).1 h, (h3 r hr).2⟩⟩

theorem linesOK_starttag {lo line : Nat} {tag : String}
    {attrs : List (String × Option String)} {s s' : ParserState} (hlo : lo ≤ line)
    (hOK : linesOK lo s) (hstep : handle_starttag s line tag attrs = .ok s') :
    linesOK line s' := by
  have hOK' := linesOK_mono hlo hOK
  unfold handle_starttag at hstep
  split at hstep
  · split at hstep
    · split at hstep
      · obtain ⟨h1, h2, _⟩ := hOK'
        cases hstep
        refine ⟨h1, h2, fun r hr => ?_⟩
        cases hr
        exact ⟨le_refl _, fun r' hr' => h2 r' hr'⟩
      · cases hstep; exact hOK'
    · cases hstep
    · cases hstep; exact hOK'
  · cases hstep; exact hOK'

theorem linesOK_endtag {lo : Nat} {tag : String} {s : ParserState}
    (hOK : linesOK lo s) : linesOK lo (handle_endtag s tag) := by
  obtain ⟨h1, h2, h3⟩ := hOK
  unfold handle_endtag
  split
  · cases hcur : s.current_link with
    | none => exact ⟨h1, h2, by simp⟩
    | some r =>
      obtain ⟨hr_lo, hr_ge⟩ := h3 r hcur
      refine ⟨?_, ?_, by simp⟩
      · rw [List.map_append]
        refine List.pairwise_append.mpr ⟨h1, by simp, ?_⟩
        intro a ha b hb
        simp only [List.map_cons, List.map_nil, List.mem_singleton] at hb
        obtain ⟨r', hr', rfl⟩ := List.mem_map.mp ha
        rw [hb]
        exact hr_ge r' hr'
      · intro r' hr'
        rcases List.mem_append.mp hr' with h | h
        · exact h2 r' h
        · simp only [List.mem_singleton] at h
          rw [h]; exact hr_lo
  · exact ⟨h1, h2, h3⟩

theorem linesOK_data {lo : Nat} {d : String} {s : ParserState}
    (hOK : linesOK lo s) : linesOK lo (handle_data s d) := by
  obtain ⟨h1, h2, h3⟩ := hOK
  unfold handle_data
  split
  · cases hcur : s.current_link with
    | none => exact ⟨h1, h2, by simp [hcur]⟩
    | some r =>
      obtain ⟨hr_lo, hr_ge⟩ := h3 r hcur
      refine ⟨h1, h2, fun r' hr' => ?_⟩
      simp only [Option.some.injEq] at hr'
      cases hr'
      exact ⟨hr_lo, hr_ge⟩
  · exact ⟨h1, h2, h3⟩

theorem processEvents_linesOK : ∀ (es : List HtmlEvent) (lo : Nat) (s s' : ParserState),
    linesOK lo s → eventsLineMono lo es = true → processEvents s es = .ok s' →
    List.Sorted (· ≤ ·) (s'.email_links.map LinkRecord.line_num) := by
  intro es
  induction es with
  | nil =>
    intro lo s s' hOK _ hrun
    simp only [processEvents, ParseOutcome.ok.injEq] at hrun
    rw [← hrun]; exact hOK.1
  | cons e rest ih =>
    intro lo s s' hOK hmono hrun
    cases hst : processEvent s e with
    | error => simp [processEvents, hst] at hrun
    | ok s1 =>
      simp only [processEvents, hst] at hrun
      cases e with
      | startTag line tag attrs =>
        simp only [eventsLineMono, Bool.and_eq_true, decide_eq_true_eq] at hmono
        simp only [processEvent] at hst
        exact ih line s1 s' (linesOK_starttag hmono.1 hOK hst) hmono.2 hrun
      | endTag tag =>
        simp only [eventsLineMono] at hmono
        simp only [processEvent, ParseOutcome.ok.injEq] at hst
        subst hst
        exact ih lo _ s' (linesOK_endtag hOK) hmono hrun
      | dataEv d =>
        simp only [eventsLineMono] at hmono
        simp only [processEvent, ParseOutcome.ok.injEq] at hst
        subst hst
        exact ih lo _ s' (linesOK_data hOK) hmono hrun

theorem processEvent_links_extend {s : ParserState} {e : HtmlEvent} {s' : ParserState}
    (h : processEvent s e = .ok s') : ∃ t, s'.email_links = s.email_links ++ t := by
  cases e with
  | startTag line tag attrs =>
    simp only [processEvent] at h
    unfold handle_starttag at h
    split at h
    · split at h
      · split at h
        · cases h; exact ⟨[], by simp⟩
        · cases h; exact ⟨[], by simp⟩
      · cases h
      · cases h; exact ⟨[], by simp⟩
    · cases h; exact ⟨[], by simp⟩
  | endTag tag =>
    simp only [processEvent, ParseOutcome.ok.injEq] at h
    rw [← h]
    unfold handle_endtag
    split
    · cases s.current_link with
      | none => exact ⟨[], by simp⟩
      | some r => exact ⟨[r], by simp⟩
    · exact ⟨[], by simp⟩
  | dataEv d =>
    simp only [processEvent, ParseOutcome.ok.injEq] at h
    rw [← h]
    unfold handle_data
    split
    · cases s.current_link with
      | none => exact ⟨[], by simp⟩
      | some r => exact ⟨[], by simp⟩
    · exact ⟨[], by simp⟩

theorem processEvents_links_extend : ∀ (es : List HtmlEvent) (s s' : ParserState),
    processEvents s es = .ok s' → ∃ t, s'.email_links = s.email_links ++ t := by
  intro es
  induction es with
  | nil =>
    intro s s' hrun
    simp only [processEvents, ParseOutcome.ok.injEq] at hrun
    exact ⟨[], by rw [← hrun]; simp⟩
  | cons e rest ih =>
    intro s s' hrun
    cases hst : processEvent s e with
    | error => simp [processEvents, hst] at hrun
    | ok s1 =>
      simp only [processEvents, hst] at hrun
      obtain ⟨t1, ht1⟩ := processEvent_links_extend hst
      obtain ⟨t2, ht2⟩ := ih s1 s' hrun
      exact ⟨t1 ++ t2, by rw [ht2, ht1, List.append_assoc]⟩

/-- Claim C7: the output sequence of link records is append-only (a run
from any state only ever extends the already collected list, so closed
records are never reordered or mutated), and from the initial state a
document-ordered event stream yields records whose source lines are
nondecreasing. -/
theorem claim_C7_output_order_preserved :
    (∀ (s : ParserState) (es : List HtmlEvent) (s' : ParserState),
      processEvents s es = .ok s' → ∃ t, s'.email_links = s.email_links ++ t) ∧
    (∀ (es : List HtmlEvent) (s' : ParserState), eventsLineMono 0 es = true →
      processEvents initState es = .ok s' →
      List.Sorted (· ≤ ·) (s'.email_links.map LinkRecord.line_num)) := by
  refine ⟨fun s es s' h => processEvents_links_extend es s s' h,
          fun es s' hm hr => processEvents_linesOK es 0 initState s' ?_ hm hr⟩
  refine ⟨by simp [initState], by simp [initState], by simp [initState]⟩

/-- Witness for C7 on a concrete two-link document. -/
theorem claim_C7_witness :
    (∃ t, ([⟨"mailto:a@a.aa", some "", "", 1⟩, ⟨"mailto:b@b.bb", some "", "", 3⟩] :
        List LinkRecord) = initState.email_links ++ t) ∧
    List.Sorted (· ≤ ·)
      (([⟨"mailto:a@a.aa", some "", "", 1⟩, ⟨"mailto:b@b.bb", some "", "", 3⟩] :
        List LinkRecord).map LinkRecord.line_num) := by
  have hrun : processEvents initState
      [.startTag 1 "a" [("href", some "mailto:a@a.aa")], .endTag "a",
       .startTag 3 "a" [("href", some "mailto:b@b.bb")], .endTag "a"] =
      .ok ⟨[⟨"mailto:a@a.aa", some "", "", 1⟩, ⟨"mailto:b@b.bb", some "", "", 3⟩],
           none, false⟩ := by decide
  exact ⟨claim_C7_output_order_preserved.1 initState _ _ hrun,
         claim_C7_output_order_preserved.2 _ _ (by decide) hrun⟩


/-! ## The domain check (claim C3) -/

/-- `pySplitChar` never returns an empty list of fields. -/
theorem pySplitChar_ne_nil (sep : Char) : ∀ l : List Char, pySplitChar sep l ≠ [] := by
  intro l
  cases l with
  | nil => simp [pySplitChar]
  | cons c rest =>
    unfold pySplitChar
    cases h : pySplitChar sep rest with
    | nil => simp
    | cons hd tl =>
      by_cases hc : c = sep
      · simp [hc]
      · simp [hc]

/-- The first field of a Python split is the run before the first
separator. -/
theorem pySplitChar_field0 (sep : Char) : ∀ l : List Char,
    (pySplitChar sep l).getD 0 [] = l.takeWhile (fun x => !(x == sep)) := by
  intro l
  induction l with
  | nil => rfl
  | cons c rest ih =>
    unfold pySplitChar
    cases h : pySplitChar sep rest with
    | nil => exact absurd h (pySplitChar_ne_nil sep rest)
    | cons hd tl =>
      rw [h] at ih
      show (if c = sep then [] :: hd :: tl else (c :: hd) :: tl).getD 0 [] = _
      by_cases hc : c = sep
      · rw [if_pos hc]
        rw [List.takeWhile_cons]
        simp [hc]
      · rw [if_neg hc]
        simp only [List.getD_cons_zero] at ih ⊢
        rw [List.takeWhile_cons]
        simp [hc, ih]

/-- The second field of a Python split is the run after the first
separator, stopping at the next separator (`[]` when no separator
occurs at all). -/
theorem pySplitChar_field1 (sep : Char) : ∀ l : List Char,
    (pySplitChar sep l).getD 1 [] =
      ((l.dropWhile (fun x => !(x == sep))).drop 1).takeWhile (fun x => !(x == sep)) := by
  intro l
  induction l with
  | nil => rfl
  | cons c rest ih =>
    unfold pySplitChar
    cases h : pySplitChar sep rest with
    | nil => exact absurd h (pySplitChar_ne_nil sep rest)
    | cons hd tl =>
      show (if c = sep then [] :: hd :: tl else (c :: hd) :: tl).getD 1 [] = _
      by_cases hc : c = sep
      · rw [if_pos hc]
        have h0 := pySplitChar_field0 sep rest
        rw [h] at h0
        simp only [List.getD_cons_zero] at h0
        have hdw : (c :: rest).dropWhile (fun x => !(x == sep)) = c :: rest := by
          rw [List.dropWhile_cons]
          simp [hc]
        rw [hdw]
        simp only [List.drop_succ_cons, List.drop_zero]
        exact h0
      · rw [if_neg hc]
        rw [h] at ih
        have hL : ((c :: hd) :: tl).getD 1 ([] : List Char) = (hd :: tl).getD 1 [] := rfl
        have hR : (c :: rest).dropWhile (fun x => !(x == sep)) =
            rest.dropWhile (fun x => !(x == sep)) := by
          rw [List.dropWhile_cons]
          simp [hc]
        rw [hL, hR]
        exact ih

/-- `domainOf` computes exactly the run of characters strictly between
the first `@` and the following `@` (or the end of the string). -/
theorem domainOf_eq_between (email : String) :
    domainOf email =
      (((email.data.dropWhile (fun x => !(x == '@'))).drop 1).takeWhile
        (fun x => !(x == '@'))).asString := by
  unfold domainOf
  split
  · rw [pySplitChar_field1]
  · rename_i hnc
    have hmem : ('@' : Char) ∉ email.data := fun hm => hnc (List.elem_iff.mpr hm)
    have hnil : email.data.dropWhile (fun x => !(x == '@')) = [] := by
      rw [List.dropWhile_eq_nil_iff]
      intro x hx
      have hxne : (x == '@') = false := by
        rw [beq_eq_false_iff_ne]
        intro hEq
        exact hmem (hEq ▸ hx)
      simp [hxne]
    rw [hnil]
    rfl

/-- From the claim's words: the portion of the candidate string after
the *first* `@` (the empty string when no `@` is present). -/
def spec_domain_after_first (email : String) : String :=
  ((email.data.dropWhile (fun x => !(x == '@'))).drop 1).asString

/-- What line 105 actually computes (`email.split('@')[1]`): the
portion after the first `@`, truncated at the next `@` if any. -/
def betweenFirstAts (email : String) : String :=
  (((email.data.dropWhile (fun x => !(x == '@'))).drop 1).takeWhile
    (fun x => !(x == '@'))).asString

/-- Claim C3 is false as stated: for the candidate email
`a@b@mckenziestudios.ai` the code computes domain `b` (the field between
the first and second `@`), not the portion `b@mckenziestudios.ai` after
the first `@`; the claim would make the domain check pass here, but the
code reports it as not a McKenzie domain. -/
theorem claim_C3_counterexample :
    (checkLink ⟨"mailto:a@b@mckenziestudios.ai", some "email-link", "", 7⟩).domain = "b" ∧
    spec_domain_after_first
        (checkLink ⟨"mailto:a@b@mckenziestudios.ai", some "email-link", "", 7⟩).email =
      "b@mckenziestudios.ai" ∧
    (checkLink ⟨"mailto:a@b@mckenziestudios.ai", some "email-link", "", 7⟩).domain ≠
      spec_domain_after_first
        (checkLink ⟨"mailto:a@b@mckenziestudios.ai", some "email-link", "", 7⟩).email ∧
    (checkLink ⟨"mailto:a@b@mckenziestudios.ai", some "email-link", "", 7⟩).is_mckenzie
      = false ∧
    hasSubstr "mckenziestudios".data
      (spec_domain_after_first
        (checkLink ⟨"mailto:a@b@mckenziestudios.ai", some "email-link", "", 7⟩).email).data
      = true := by
  decide

/-- Claim C3 (amended): the domain check computes `domain` as the
portion of the candidate email strictly between the first `@` and the
next `@` (or the end; empty when no `@` at all), passes exactly when
that domain contains `mckenziestudios`, prints `⚠ INFO` on failure, and
never enters `all_tests_passed`. -/
theorem claim_C3_amended_domain_between_ats (link : LinkRecord) :
    ((checkLink link).domain = betweenFirstAts (checkLink link).email) ∧
    ((checkLink link).is_mckenzie =
      hasSubstr "mckenziestudios".data (checkLink link).domain.data) ∧
    ((checkLink link).is_mckenzie = false → domainStatus link = "⚠ INFO") ∧
    (∀ (html : String) (links : List LinkRecord),
      mainAllTestsPassed html links =
        ((links.all fun l => (checkLink l).is_valid && (checkLink l).text_matches) &&
          !hasDuplicateClosingTags html && !hasMalformedMailto html)) := by
  refine ⟨?_, rfl, fun hm => ?_, fun html links => mainAllTestsPassed_eq html links⟩
  · exact domainOf_eq_between ((checkLink link).email)
  · simp [domainStatus, hm]

/-- Witness for the amended C3 on a non-McKenzie link. -/
theorem claim_C3_witness :
    (checkLink ⟨"mailto:someone@gmail.com", some "x", "someone@gmail.com", 2⟩).domain =
      betweenFirstAts
        (checkLink ⟨"mailto:someone@gmail.com", some "x", "someone@gmail.com", 2⟩).email ∧
    domainStatus ⟨"mailto:someone@gmail.com", some "x", "someone@gmail.com", 2⟩ =
      "⚠ INFO" :=
  ⟨(claim_C3_amended_domain_between_ats
      ⟨"mailto:someone@gmail.com", some "x", "someone@gmail.com", 2⟩).1,
   (claim_C3_amended_domain_between_ats
      ⟨"mailto:someone@gmail.com", some "x", "someone@gmail.com", 2⟩).2.2.1 (by decide)⟩

/-! ## The candidate email (claim C4) -/

/-- From the claim's words: the substring of the href following the
leading `mailto:` prefix. -/
def spec_candidate_after_head (href : String) : String :=
  (href.data.drop mailtoChars.length).asString

/-- With enough fuel, `replMFuel` leaves a list without any `mailto:`
occurrence unchanged. -/
theorem replMFuel_no_occurrence : ∀ (n : Nat) (l : List Char), l.length ≤ n →
    hasSubstr mailtoChars l = false → replMFuel n l = l := by
  intro n
  induction n with
  | zero =>
    intro l hlen _
    cases l with
    | nil => rfl
    | cons c rest => simp at hlen
  | succ n ih =>
    intro l hlen hocc
    cases l with
    | nil => rfl
    | cons c rest =>
      simp only [hasSubstr, Bool.or_eq_false_iff] at hocc
      obtain ⟨hp, hr⟩ := hocc
      simp only [replMFuel, hp, Bool.false_eq_true, if_false]
      rw [ih rest (by simpa using Nat.lt_succ_iff.mp (Nat.lt_of_lt_of_le (Nat.lt_succ_of_le (Nat.le_refl _)) hlen)) hr]

/-- Stripping the leading `mailto:` via Python `replace` on an href in
which `mailto:` does not reoccur. -/
theorem pyReplaceMailtoEmpty_strip (rest : List Char)
    (hocc : hasSubstr mailtoChars rest = false) :
    pyReplaceMailtoEmpty (mailtoChars ++ rest) = rest := by
  have hshape : mailtoChars ++ rest =
      'm' :: ('a' :: 'i' :: 'l' :: 't' :: 'o' :: ':' :: rest) := rfl
  have hlen : (mailtoChars ++ rest).length = (rest.length + 6) + 1 := by
    rw [List.length_append]
    have hm7 : mailtoChars.length = 7 := rfl
    omega
  have hpre : mailtoChars.isPrefixOf
      ('m' :: 'a' :: 'i' :: 'l' :: 't' :: 'o' :: ':' :: rest) = true := by
    simp [mailtoChars, List.isPrefixOf]
  unfold pyReplaceMailtoEmpty
  rw [hlen, hshape]
  simp only [replMFuel, hpre, if_true, List.drop_succ_cons, List.drop_zero]
  exact replMFuel_no_occurrence _ rest (by omega) hocc

/-- Claim C4 is false as stated: `main` computes the candidate email
with `str.replace`, which removes *every* occurrence of `mailto:`, not
only the leading prefix.  On the extractable href
`mailto:mailto:a@b.cc` the code's candidate is `a@b.cc` while the
substring after the leading prefix is `mailto:a@b.cc`, and the
text-match outcome differs from what the claim predicts. -/
theorem claim_C4_counterexample :
    processEvents initState
      [.startTag 1 "a" [("href", some "mailto:mailto:a@b.cc")],
       .dataEv "a@b.cc", .endTag "a"] =
      .ok ⟨[⟨"mailto:mailto:a@b.cc", some "", "a@b.cc", 1⟩], none, false⟩ ∧
    (checkLink ⟨"mailto:mailto:a@b.cc", some "", "a@b.cc", 1⟩).email = "a@b.cc" ∧
    spec_candidate_after_head "mailto:mailto:a@b.cc" = "mailto:a@b.cc" ∧
    (checkLink ⟨"mailto:mailto:a@b.cc", some "", "a@b.cc", 1⟩).email ≠
      spec_candidate_after_head "mailto:mailto:a@b.cc" ∧
    (checkLink ⟨"mailto:mailto:a@b.cc", some "", "a@b.cc", 1⟩).text_matches = true ∧
    ¬(("a@b.cc" : String) = spec_candidate_after_head "mailto:mailto:a@b.cc") := by
  decide

/-- Claim C4 (amended): the candidate email is the href with every
occurrence of `mailto:` removed; whenever `mailto:` does not reoccur
after the leading prefix this coincides with the substring following
that prefix, and the text-match check passes exactly when the link's
visible text equals the candidate. -/
theorem claim_C4_amended_candidate (link : LinkRecord) (rest : List Char)
    (hhead : link.href.data = mailtoChars ++ rest)
    (hclean : hasSubstr mailtoChars rest = false) :
    (checkLink link).email = rest.asString ∧
    ((checkLink link).text_matches = true ↔ link.text = rest.asString) := by
  have he : (checkLink link).email = rest.asString := by
    show (pyReplaceMailtoEmpty link.href.data).asString = rest.asString
    rw [hhead, pyReplaceMailtoEmpty_strip rest hclean]
  refine ⟨he, ?_⟩
  have ht : (checkLink link).text_matches = (link.text == (checkLink link).email) := rfl
  rw [ht, he]
  exact beq_iff_eq

/-- Witness for the amended C4 on the real link of the site. -/
theorem claim_C4_witness :
    (checkLink ⟨"mailto:chat@mckenziestudios.ai", some "email-link",
        "chat@mckenziestudios.ai", 5⟩).email =
      ("chat@mckenziestudios.ai".data).asString ∧
    ((checkLink ⟨"mailto:chat@mckenziestudios.ai", some "email-link",
        "chat@mckenziestudios.ai", 5⟩).text_matches = true ↔
      ("chat@mckenziestudios.ai" : String) =
        ("chat@mckenziestudios.ai".data).asString) :=
  claim_C4_amended_candidate
    ⟨"mailto:chat@mckenziestudios.ai", some "email-link", "chat@mckenziestudios.ai", 5⟩
    "chat@mckenziestudios.ai".data rfl (by decide)

/-! ## Declarative reading of the email regex (claim C2) -/

/-- `takeWhile` stops exactly at the first failing element. -/
theorem takeWhile_append_stop (p : Char → Bool) :
    ∀ (xs : List Char) (y : Char) (ys : List Char),
      (∀ c ∈ xs, p c = true) → p y = false →
      (xs ++ y :: ys).takeWhile p = xs := by
  intro xs
  induction xs with
  | nil =>
    intro y ys _ hy
    simp [List.takeWhile_cons, hy]
  | cons x xs ih =>
    intro y ys hall hy
    rw [List.cons_append, List.takeWhile_cons]
    have hx : p x = true := hall x (by simp)
    simp [hx, ih y ys (fun c hc => hall c (List.mem_cons_of_mem _ hc)) hy]

/-- Dropping the maximal `p`-run is `dropWhile`. -/
theorem drop_takeWhile_length (p : Char → Bool) : ∀ l : List Char,
    l.drop (l.takeWhile p).length = l.dropWhile p := by
  intro l
  induction l with
  | nil => rfl
  | cons c rest ih =>
    rw [List.takeWhile_cons, List.dropWhile_cons]
    by_cases hc : p c = true
    · simp [hc, ih]
    · simp [hc]

/-- Reversing a list of the shape `D ++ '.' :: T`. -/
theorem reverse_dot_split (D T : List Char) :
    (D ++ '.' :: T).reverse = T.reverse ++ '.' :: D.reverse := by
  rw [List.reverse_append, List.reverse_cons]
  simp [List.append_assoc]

/-- The deterministic matcher agrees with the declarative reading of
`^[a-zA-Z0-9._%+-]+@[a-zA-Z0-9.-]+\.[a-zA-Z]{2,}$` as a whole-string
decomposition. -/
theorem matchEmailCore_iff (l : List Char) :
    matchEmailCore l = true ↔
      ∃ L D T : List Char, l = L ++ '@' :: (D ++ '.' :: T) ∧
        L ≠ [] ∧ (∀ c ∈ L, isLocalChar c = true) ∧
        D ≠ [] ∧ (∀ c ∈ D, isDomainChar c = true) ∧
        2 ≤ T.length ∧ (∀ c ∈ T, isAsciiLetter c = true) := by
  constructor
  · intro h
    simp only [matchEmailCore, Bool.and_eq_true, decide_eq_true_eq] at h
    obtain ⟨hne, hm⟩ := h
    rw [drop_takeWhile_length] at hm
    cases hd : l.dropWhile isLocalChar with
    | nil => rw [hd] at hm; exact absurd hm (by simp)
    | cons c r =>
      rw [hd] at hm
      split at hm
      · rename_i r1 heq
        obtain ⟨rfl, rfl⟩ : c = '@' ∧ r = r1 := by
          injection heq with h1 h2; exact ⟨h1, h2⟩
        simp only [Bool.and_eq_true, decide_eq_true_eq] at hm
        obtain ⟨htl, hm2⟩ := hm
        rw [drop_takeWhile_length] at hm2
        cases hd2 : r.reverse.dropWhile isAsciiLetter with
        | nil => rw [hd2] at hm2; exact absurd hm2 (by simp)
        | cons c2 r2 =>
          rw [hd2] at hm2
          split at hm2
          · rename_i r3 heq2
            obtain ⟨rfl, rfl⟩ : c2 = '.' ∧ r2 = r3 := by
              injection heq2 with h1 h2; exact ⟨h1, h2⟩
            simp only [Bool.and_eq_true, decide_eq_true_eq, List.all_eq_true] at hm2
            obtain ⟨hDne, hDall⟩ := hm2
            refine ⟨l.takeWhile isLocalChar, r2.reverse,
                    (r.reverse.takeWhile isAsciiLetter).reverse,
                    ?_, hne, ?_, ?_, ?_, ?_, ?_⟩
            · have h1 : l = l.takeWhile isLocalChar ++ l.dropWhile isLocalChar :=
                (List.takeWhile_append_dropWhile _ _).symm
              have h2 : r.reverse = r.reverse.takeWhile isAsciiLetter ++ '.' :: r2 := by
                conv_lhs => rw [← List.takeWhile_append_dropWhile isAsciiLetter r.reverse]
                rw [hd2]
              have h3 : r = (r.reverse.takeWhile isAsciiLetter ++ '.' :: r2).reverse := by
                rw [← h2, List.reverse_reverse]
              rw [reverse_dot_split] at h3
              conv_lhs => rw [h1, hd, h3]
            · intro x hx; exact List.mem_takeWhile_imp hx
            · simpa using hDne
            · intro x hx; exact hDall x (List.mem_reverse.mp hx)
            · simpa using htl
            · intro x hx; exact List.mem_takeWhile_imp (List.mem_reverse.mp hx)
          · exact absurd hm2 (by simp)
      · exact absurd hm (by simp)
  · rintro ⟨L, D, T, rfl, hLne, hL, hDne, hD, hTlen, hT⟩
    have h1 : (L ++ '@' :: (D ++ '.' :: T)).takeWhile isLocalChar = L :=
      takeWhile_append_stop isLocalChar L '@' _ hL (by decide)
    have h3 : (T.reverse ++ '.' :: D.reverse).takeWhile isAsciiLetter = T.reverse :=
      takeWhile_append_stop isAsciiLetter T.reverse '.' D.reverse
        (fun c hc => hT c (List.mem_reverse.mp hc)) (by decide)
    simp only [matchEmailCore, h1, List.drop_left, reverse_dot_split, h3,
               Bool.and_eq_true, decide_eq_true_eq, List.all_eq_true]
    refine ⟨hLne, by simpa using hTlen, by simpa using hDne,
            fun x hx => hD x (List.mem_reverse.mp hx)⟩

/-- From the spec's words: the *entire* candidate string (nothing
before or after the match) decomposes as local part, `@`, domain part,
literal dot, and a TLD of at least two letters. -/
def spec_email_format (email : String) : Prop :=
  ∃ L D T : List Char, email.data = L ++ '@' :: (D ++ '.' :: T) ∧
    L ≠ [] ∧ (∀ c ∈ L, isLocalChar c = true) ∧
    D ≠ [] ∧ (∀ c ∈ D, isDomainChar c = true) ∧
    2 ≤ T.length ∧ (∀ c ∈ T, isAsciiLetter c = true)

/-- Claim C2 is false as stated: Python's `$` also matches just before
a trailing newline, so `chat@mckenziestudios.ai\n` passes
`validate_email_format` although the entire string does not match the
pattern (no pattern character class contains a newline). -/
theorem claim_C2_counterexample :
    validate_email_format "chat@mckenziestudios.ai\n" = true ∧
    ¬ spec_email_format "chat@mckenziestudios.ai\n" := by
  refine ⟨by decide, ?_⟩
  rintro ⟨L, D, T, heq, -, -, -, -, hTlen, hT⟩
  have hTne : T ≠ [] := by
    intro h
    rw [h] at hTlen
    simp at hTlen
  have hlast : ("chat@mckenziestudios.ai\n".data).getLast? = some '\n' := by decide
  rw [heq] at hlast
  have hre : L ++ '@' :: (D ++ '.' :: T) = ((L ++ '@' :: D) ++ ['.']) ++ T := by
    simp [List.append_assoc]
  rw [hre] at hlast
  rw [List.getLast?_append_of_ne_nil _ hTne] at hlast
  have hmem : '\n' ∈ T := by
    have hsome := List.getLast?_eq_getLast_of_ne_nil hTne
    rw [hsome] at hlast
    have h2 : T.getLast hTne = '\n' := by
      injection hlast
    exact h2 ▸ List.getLast_mem hTne
  exact absurd (hT '\n' hmem) (by decide)

/-- Claim C2 (amended): the format check passes exactly when the whole
candidate matches the pattern, or the whole candidate minus a single
trailing newline does (Python `$` semantics); in particular the three
examples of the spec behave as stated. -/
theorem claim_C2_amended_format_regex :
    (∀ email : String, validate_email_format email = true ↔
      (spec_email_format email ∨
        (email.data.getLast? = some '\n' ∧
          spec_email_format (email.data.dropLast.asString)))) ∧
    validate_email_format "chat@mckenziestudios.ai" = true ∧
    validate_email_format "chat@mckenziestudios" = false ∧
    validate_email_format "chat @mckenziestudios.ai" = false := by
  refine ⟨fun email => ?_, by decide, by decide, by decide⟩
  unfold validate_email_format spec_email_format
  simp only [Bool.or_eq_true, Bool.and_eq_true, matchEmailCore_iff, beq_iff_eq,
             show ∀ l : List Char, (l.asString).data = l from fun l => rfl]

/-- Witness for the amended C2 on the site's address. -/
theorem claim_C2_witness :
    spec_email_format "chat@mckenziestudios.ai" ∨
      (("chat@mckenziestudios.ai".data).getLast? = some '\n' ∧
        spec_email_format ("chat@mckenziestudios.ai".data.dropLast.asString)) :=
  (claim_C2_amended_format_regex.1 "chat@mckenziestudios.ai").mp (by decide)
